import Mathlib

/- Verification development for the appearance-data extraction and
reconciliation pipeline (scraper/extract_appearance_data.py,
scraper/augment_bench_dnp.py, scraper/normalize_and_check_appearance.py).

Strings are modelled as Lean strings processed as lists of code points,
matching Python's string model.  Python int() and float() are modelled on
finite ASCII decimal literals; special float literals (inf, nan) and
non-ASCII digits are outside the inputs this development considers.
Loops whose measure is the string length are written with an explicit
fuel argument that is instantiated with the length of the input; each
iteration consumes at least one character per unit of fuel, so the fuel
is never exhausted and the definitions agree with the source loops on
all inputs. -/

/-- ASCII whitespace, as stripped by Python str.strip(). -/
def pyWS (c : Char) : Bool :=
  c == ' ' || c == '\t' || c == '\n' || c == '\r' || c == '\x0b' || c == '\x0c'

/-- Python str.strip() on code points. -/
def pyStripL (l : List Char) : List Char :=
  ((l.dropWhile pyWS).reverse.dropWhile pyWS).reverse

/-- Python str.strip(). -/
def pyStrip (s : String) : String := String.mk (pyStripL s.toList)

/-- Bool substring test on code-point lists. -/
def isSubL (ne : List Char) : List Char → Bool
  | [] => ne.isEmpty
  | c :: rest => ne.isPrefixOf (c :: rest) || isSubL ne rest

/-- Python substring membership: the first string occurs in the second. -/
def pyIn (ne hay : String) : Bool := isSubL ne.toList hay.toList

/-- Python str.replace: replaces each non-overlapping occurrence of `ne`,
left to right, by `re`.  Each step consumes at least one character, so
fuel `hay.length` never runs out. -/
def replaceSubF (ne re : List Char) : Nat → List Char → List Char
  | _, [] => []
  | 0, l => l
  | fuel + 1, c :: rest =>
    if ne ≠ [] ∧ ne.isPrefixOf (c :: rest) then
      re ++ replaceSubF ne re fuel ((c :: rest).drop ne.length)
    else
      c :: replaceSubF ne re fuel rest

/-- Python s.replace(ne, re). -/
def pyReplace (s ne re : String) : String :=
  String.mk (replaceSubF ne.toList re.toList s.toList.length s.toList)

/-- The normalize_team whitespace loop: while a double space occurs,
replace double spaces by single ones.  Every iteration shortens the
string, so fuel `length` suffices. -/
def collapseF : Nat → List Char → List Char
  | 0, l => l
  | fuel + 1, l =>
    if isSubL [' ', ' '] l then
      collapseF fuel (replaceSubF [' ', ' '] [' '] l.length l)
    else l

/-- The collapse-double-spaces loop of normalize_team. -/
def pyCollapseSpaces (s : String) : String :=
  String.mk (collapseF s.toList.length s.toList)

/-- A run of ASCII digits obeying Python's underscore grouping rule:
nonempty, starts and ends with a digit, underscores only between digits. -/
def digitRun : List Char → Bool
  | [] => false
  | [c] => c.isDigit
  | c :: '_' :: rest2 => c.isDigit && digitRun rest2
  | c :: d :: rest => c.isDigit && digitRun (d :: rest)

/-- Decimal value of a digit list. -/
def digitsVal (l : List Char) : Nat :=
  l.foldl (fun acc c => 10 * acc + (c.toNat - '0'.toNat)) 0

/-- Python int(s) on ASCII decimal literals: whitespace is stripped, then
one optional sign, then an underscore-grouped digit run. -/
def pyIntParse (s : String) : Option Int :=
  match pyStripL s.toList with
  | '+' :: rest =>
    if digitRun rest then some ((digitsVal (rest.filter (fun c => c != '_')) : Nat) : Int) else none
  | '-' :: rest =>
    if digitRun rest then some (-((digitsVal (rest.filter (fun c => c != '_')) : Nat) : Int)) else none
  | l =>
    if digitRun l then some ((digitsVal (l.filter (fun c => c != '_')) : Nat) : Int) else none

/-- Optionally signed underscore-grouped digit run (float exponents). -/
def signedDigitRun : List Char → Option Int
  | '+' :: rest =>
    if digitRun rest then some ((digitsVal (rest.filter (fun c => c != '_')) : Nat) : Int) else none
  | '-' :: rest =>
    if digitRun rest then some (-((digitsVal (rest.filter (fun c => c != '_')) : Nat) : Int)) else none
  | l =>
    if digitRun l then some ((digitsVal (l.filter (fun c => c != '_')) : Nat) : Int) else none

/-- Mantissa of a float literal: integer digits, an optional point, and
fraction digits, at least one digit in total.  Returns the combined digit
value together with the number of fraction digits. -/
def mantissaParse (l : List Char) : Option (Nat × Nat) :=
  let ip := l.takeWhile (fun c => c != '.')
  let rest := l.dropWhile (fun c => c != '.')
  match rest with
  | [] => if digitRun ip then some (digitsVal (ip.filter (fun c => c != '_')), 0) else none
  | _ :: fp =>
    if (ip.isEmpty || digitRun ip) && (fp.isEmpty || digitRun fp) && !(ip.isEmpty && fp.isEmpty) then
      some (digitsVal ((ip ++ fp).filter (fun c => c != '_')),
            (fp.filter (fun c => c != '_')).length)
    else none

/-- Python float(s) on finite ASCII decimal literals: optional sign,
mantissa, optional exponent.  inf and nan literals are outside the inputs
this development considers. -/
def pyFloatParse (s : String) : Option ℚ :=
  let l := pyStripL s.toList
  let sb : Int × List Char :=
    match l with
    | '+' :: rest => (1, rest)
    | '-' :: rest => (-1, rest)
    | _ => (1, l)
  let mant := sb.2.takeWhile (fun c => c != 'e' && c != 'E')
  let erest := sb.2.dropWhile (fun c => c != 'e' && c != 'E')
  let expPart : Option Int :=
    match erest with
    | [] => some 0
    | _ :: es => signedDigitRun es
  match mantissaParse mant, expPart with
  | some (num, fd), some e =>
    let e2 : Int := e - fd
    if 0 ≤ e2 then
      some (Rat.divInt (sb.1 * (num : Int) * (10 : Int) ^ e2.toNat) 1)
    else
      some (Rat.divInt (sb.1 * (num : Int)) ((10 : Int) ^ (-e2).toNat))
  | _, _ => none

/-- parse_minutes (scraper/extract_appearance_data.py): int(raw) if that
succeeds, else the leading digit run of raw, else absent; empty input is
absent. -/
def parse_minutes (raw : String) : Option Int :=
  if raw = "" then none
  else
    match pyIntParse raw with
    | some v => some v
    | none =>
      match raw.toList.takeWhile Char.isDigit with
      | [] => none
      | ds => some ((digitsVal ds : Nat) : Int)

/-- parse_float (scraper/extract_appearance_data.py): absent input stays
absent; the stripped text must not be empty or a lone dash; float(s) is
tried first, then float on the text with commas removed; absent on
failure. -/
def parse_float : Option String → Option ℚ
  | none => none
  | some raw =>
    let s := pyStrip raw
    if s = "" ∨ s = "-" then none
    else
      match pyFloatParse s with
      | some v => some v
      | none => pyFloatParse (pyReplace s "," "")

/-- AppearanceRow (scraper/extract_appearance_data.py). -/
structure AppearanceRow where
  matchId : String
  matchUrl : String
  playerName : String
  teamName : String
  in_squad : Bool
  started : Bool
  minutes_played : Option Int
  npXg : Option ℚ
  xAG : Option ℚ
deriving DecidableEq

/-- One tr of a stats table body, with the fields the extractor inspects:
whether its class list contains thead, whether its stripped text contains
Bench, whether it is the data-row zero min/player separator row, and the
stripped texts of its player / minutes / npxg / xg_assist cells (absent
when the cell is absent). -/
structure TableRow where
  isHeaderBreak : Bool
  headerHasBench : Bool
  isSeparator : Bool
  player : Option String
  minutes : Option String
  npxg : Option String
  xag : Option String
deriving DecidableEq

/-- A table of the document: its element id, its caption text when a
caption element is present, and its tbody rows when a tbody is present. -/
structure StatsTable where
  tid : String
  caption : Option String
  tbody : Option (List TableRow)
deriving DecidableEq

/-- One tr of a lineup table: the stripped text of its first th, if any,
and the resolved player name of each td (anchor text when the cell has a
link, cell text otherwise). -/
structure LineupRow where
  th : Option String
  tds : List String
deriving DecidableEq

/-- The table inside one lineup section. -/
structure LineupTable where
  rows : List LineupRow
deriving DecidableEq

/-- A parsed match-report document: tables of the live tree, tables found
inside markup comments, and the lineup sections (none stands for a lineup
div without a table). -/
structure MatchDoc where
  liveTables : List StatsTable
  commentTables : List StatsTable
  lineups : List (Option LineupTable)
deriving DecidableEq

/-- extract_from_html, candidate collection: live tables then
comment-embedded tables, keeping those whose id starts with stats_ and
ends with _summary. -/
def candidate_tables (doc : MatchDoc) : List StatsTable :=
  (doc.liveTables ++ doc.commentTables).filter
    (fun t => ("stats_".toList).isPrefixOf t.tid.toList &&
              ("_summary".toList).isSuffixOf t.tid.toList)

/-- extract_player_rows_from_table, tbody loop, carrying the
started/bench flag: a thead row whose text contains Bench flips the flag
to false; separator rows, rows without a player cell and rows with an
empty player name are skipped; every other row yields one AppearanceRow
with the current flag. -/
def extract_rows_loop (team mid murl : String) : List TableRow → Bool → List AppearanceRow
  | [], _ => []
  | tr :: rest, flag =>
    if tr.isHeaderBreak then
      extract_rows_loop team mid murl rest (if tr.headerHasBench then false else flag)
    else if tr.isSeparator then
      extract_rows_loop team mid murl rest flag
    else
      match tr.player with
      | none => extract_rows_loop team mid murl rest flag
      | some name =>
        if name = "" then extract_rows_loop team mid murl rest flag
        else
          { matchId := mid, matchUrl := murl, playerName := name, teamName := team,
            in_squad := true, started := flag,
            minutes_played := parse_minutes (tr.minutes.getD ""),
            npXg := parse_float tr.npxg,
            xAG := parse_float tr.xag } :: extract_rows_loop team mid murl rest flag

/-- extract_player_rows_from_table: no tbody, no rows; otherwise the tbody
loop starting in the started state. -/
def extract_player_rows_from_table (t : StatsTable) (team mid murl : String) : List AppearanceRow :=
  match t.tbody with
  | none => []
  | some trs => extract_rows_loop team mid murl trs true

/-- A lineup row whose th text contains Bench. -/
def thHasBench (r : LineupRow) : Bool :=
  match r.th with
  | some t => pyIn "Bench" t
  | none => false

/-- get_lineup_starters, per-table loop: stops at the Bench row; before
it, every row with at least two td cells contributes the nonempty name of
its second td. -/
def lineup_starters_rows : List LineupRow → List String
  | [] => []
  | r :: rest =>
    if thHasBench r then []
    else
      match r.tds[1]? with
      | some name =>
        if name = "" then lineup_starters_rows rest else name :: lineup_starters_rows rest
      | none => lineup_starters_rows rest

/-- get_lineup_starters: all starters across the lineup sections (a list
standing for the Python set; only membership and nonemptiness are used). -/
def get_lineup_starters (doc : MatchDoc) : List String :=
  doc.lineups.flatMap (fun lt? =>
    match lt? with
    | none => []
    | some lt => lineup_starters_rows lt.rows)

/-- extract_unused_subs_from_lineups, per-table loop: a Bench th row sets
the seen-bench state; rows after it with at least two td cells and a
nonempty second-td name not already among the played players yield one
synthetic row with started false and all numeric fields absent. -/
def unused_subs_loop (team mid murl : String) (played : List String) :
    List LineupRow → Bool → List AppearanceRow
  | [], _ => []
  | r :: rest, seenBench =>
    if thHasBench r then unused_subs_loop team mid murl played rest true
    else if !seenBench then unused_subs_loop team mid murl played rest seenBench
    else
      match r.tds[1]? with
      | none => unused_subs_loop team mid murl played rest seenBench
      | some name =>
        if name = "" then unused_subs_loop team mid murl played rest seenBench
        else if played.contains name then unused_subs_loop team mid murl played rest seenBench
        else
          { matchId := mid, matchUrl := murl, playerName := name, teamName := team,
            in_squad := true, started := false, minutes_played := none,
            npXg := none, xAG := none } :: unused_subs_loop team mid murl played rest seenBench

/-- The first th of a lineup table (find of th over the table). -/
def lineupFirstTh (lt : LineupTable) : Option String :=
  (lt.rows.filterMap LineupRow.th).head?

/-- Lineup header to team name: the part before the first open paren,
stripped (drops a trailing formation annotation). -/
def teamFromHeader (hdr : String) : String :=
  pyStrip (String.mk (hdr.toList.takeWhile (fun c => c != '(')))

/-- extract_unused_subs_from_lineups: lineup sections without a table or
without any th are skipped; each other section is walked with its header
team name. -/
def extract_unused_subs_from_lineups (lineups : List (Option LineupTable))
    (played : List String) (mid murl : String) : List AppearanceRow :=
  lineups.flatMap (fun lt? =>
    match lt? with
    | none => []
    | some lt =>
      match lineupFirstTh lt with
      | none => []
      | some hdr => unused_subs_loop (teamFromHeader hdr) mid murl played lt.rows false)

/-- Lowercase hex character class of the match id pattern. -/
def isHexLowerDigit (c : Char) : Bool :=
  c.isDigit || (decide ('a' ≤ c) && decide (c ≤ 'f'))

/-- re.search of the pattern slash-matches-slash followed by eight
lowercase hex characters: first position where it matches, returning the
captured eight characters. -/
def matchIdSearch : List Char → Option (List Char)
  | [] => none
  | c :: rest =>
    if ("/matches/".toList).isPrefixOf (c :: rest) &&
       (((c :: rest).drop 9).take 8).length == 8 &&
       (((c :: rest).drop 9).take 8).all isHexLowerDigit then
      some (((c :: rest).drop 9).take 8)
    else matchIdSearch rest

/-- Match id inferred from the url path, empty when undeterminable. -/
def matchIdOf (url : String) : String :=
  match matchIdSearch url.toList with
  | some l => String.mk l
  | none => ""

/-- Caption text to team name: the literal Player Stats removed, then
stripped. -/
def teamFromCaption (cap : String) : String :=
  pyStrip (pyReplace cap "Player Stats" "")

/-- extract_from_html, per-table loop: tables without a caption are
skipped; rows are extracted with the caption team name; when the lineup
starter set is non-empty every row's started flag is overridden to
membership of its player name; the played-player set accumulates the row
player names.  Returns the extracted rows and the final played set. -/
def processTables (starters : List String) (mid murl : String) :
    List StatsTable → List String → List AppearanceRow × List String
  | [], played => ([], played)
  | t :: rest, played =>
    match t.caption with
    | none => processTables starters mid murl rest played
    | some cap =>
      let rows0 := extract_player_rows_from_table t (teamFromCaption cap) mid murl
      let rows := if starters.isEmpty then rows0
                  else rows0.map (fun r => { r with started := starters.contains r.playerName })
      let next := processTables starters mid murl rest (played ++ rows.map (fun r => r.playerName))
      (rows ++ next.1, next.2)

/-- The stats-table part of extract_from_html: extracted rows and the
played-player set. -/
def table_results (doc : MatchDoc) (murl : String) : List AppearanceRow × List String :=
  processTables (get_lineup_starters doc) (matchIdOf murl) murl (candidate_tables doc) []

/-- extract_from_html: stats-table rows followed by the synthetic
unused-substitute rows. -/
def extract_from_html (doc : MatchDoc) (murl : String) : List AppearanceRow :=
  (table_results doc murl).1 ++
    extract_unused_subs_from_lineups doc.lineups (table_results doc murl).2 (matchIdOf murl) murl

/-- rebuild_full_json_from_jsonl, line loop: a line that decodes is
appended to the array, a line that fails to decode is skipped silently.
`decode` stands for json.loads on one log line. -/
def rebuild_loop {R : Type} (decode : String → Option R) : List String → List R → List R
  | [], acc => acc
  | line :: rest, acc =>
    match decode line with
    | some r => rebuild_loop decode rest (acc ++ [r])
    | none => rebuild_loop decode rest acc

/-- rebuild_full_json_from_jsonl: none models a missing log file, in which
case the empty array is written; otherwise the log lines are decoded in
order.  The result is the snapshot array that is written out. -/
def rebuild_full_json_from_jsonl {R : Type} (decode : String → Option R) :
    Option (List String) → List R
  | none => []
  | some lines => rebuild_loop decode lines []

/-- load_already_processed_urls, over the decoded log records: the
matchUrl values present in the append log (a list standing for the Python
set). -/
def load_already_processed_urls (log : List AppearanceRow) : List String :=
  log.map (fun r => r.matchUrl)

/-- augment_bench_dnp.py main, new-row selection for one document: keep
the rows with absent minutes whose player and team key is not already
indexed for this url. -/
def augment_new_rows (existing : List (String × String)) (rows : List AppearanceRow) :
    List AppearanceRow :=
  rows.filter (fun r => r.minutes_played.isNone && !existing.contains (r.playerName, r.teamName))

/-- Circuit-breaker threshold (extract_appearance_data.py). -/
def CONSECUTIVE_FAIL_CUTOFF : Nat := 5

/-- The three ways processing one url can go, as seen by the main loop:
request_html returned nothing, extract_from_html raised, or extraction
returned a row list (possibly empty). -/
inductive DocOutcome where
  | fetchFail
  | parseError
  | parsed (rows : List AppearanceRow)
deriving DecidableEq

/-- The state of the main loop of extract_appearance_data.py.  `fetched`
records the urls for which request_html was called; sleeps, console
output and the batch-cooldown counter are timing only and not modelled. -/
structure LoopState where
  processed : List String
  log : List AppearanceRow
  failLog : List (String × String)
  consecutive_fails : Nat
  fetched : List String
deriving DecidableEq

/-- extract_appearance_data.py main, url loop.  An already-processed url
is skipped.  A fetch failure or a parse error records a failure, bumps
the consecutive-failure counter and breaks out of the loop when the
counter has reached the cutoff.  A zero-row extraction records a failure
and bumps the counter without a cutoff check.  A successful extraction
appends the rows to the log, resets the counter and marks the url
processed. -/
def main_loop (world : String → DocOutcome) : List String → LoopState → LoopState
  | [], st => st
  | url :: rest, st =>
    if st.processed.contains url then main_loop world rest st
    else
      let st1 := { st with fetched := st.fetched ++ [url] }
      match world url with
      | .fetchFail =>
        let st2 := { st1 with failLog := st1.failLog ++ [(url, "fetch_failed")],
                              consecutive_fails := st1.consecutive_fails + 1 }
        if CONSECUTIVE_FAIL_CUTOFF ≤ st2.consecutive_fails then st2
        else main_loop world rest st2
      | .parseError =>
        let st2 := { st1 with failLog := st1.failLog ++ [(url, "parse_error")],
                              consecutive_fails := st1.consecutive_fails + 1 }
        if CONSECUTIVE_FAIL_CUTOFF ≤ st2.consecutive_fails then st2
        else main_loop world rest st2
      | .parsed rows =>
        if rows.isEmpty then
          main_loop world rest
            { st1 with failLog := st1.failLog ++ [(url, "no_rows")],
                       consecutive_fails := st1.consecutive_fails + 1 }
        else
          main_loop world rest
            { st1 with log := st1.log ++ rows, consecutive_fails := 0,
                       processed := st1.processed ++ [url] }

/-- A snapshot record as read by normalize_and_check_appearance.py: the
two fields that script inspects. -/
structure SnapRow where
  matchUrl : String
  teamName : String
deriving DecidableEq

/-- TEAM_ALIASES (normalize_and_check_appearance.py). -/
def TEAM_ALIASES : List (String × String) :=
  [("Manchester Utd", "Manchester United"),
   ("Man Utd", "Manchester United"),
   ("West Ham Utd", "West Ham"),
   ("Brighton & Hove Albion", "Brighton and Hove Albion"),
   ("Wolves", "Wolverhampton Wanderers"),
   ("Newcastle Utd", "Newcastle United")]

/-- normalize_team: empty name unchanged; otherwise drop the literal
Table, strip, collapse double spaces, apply an exact alias if one
matches, else expand the Utd word. -/
def normalize_team (name : String) : String :=
  if name = "" then name
  else
    let n1 := pyCollapseSpaces (pyStrip (pyReplace name "Table" ""))
    match TEAM_ALIASES.lookup n1 with
    | some v => v
    | none => pyReplace n1 " Utd" " United"

/-- Code-point lexicographic comparison (Python's string order). -/
def lexLe : List Char → List Char → Bool
  | [], _ => true
  | _ :: _, [] => false
  | a :: as, b :: bs =>
    if a.toNat < b.toNat then true
    else if b.toNat < a.toNat then false
    else lexLe as bs

/-- Python's string order as a relation on strings. -/
def strle (a b : String) : Prop := lexLe a.toList b.toList = true

instance : DecidableRel strle :=
  fun a b => inferInstanceAs (Decidable (lexLe a.toList b.toList = true))

/-- First-occurrence deduplication: the iteration order of a Python set
built by successive adds is not observable, but dict keys keep insertion
order; this is the insertion-order key list of a dict or the element list
of a set, first occurrences first. -/
def dedupFirstAux (seen : List String) : List String → List String
  | [] => []
  | a :: l =>
    if seen.contains a then dedupFirstAux seen l
    else a :: dedupFirstAux (seen ++ [a]) l

/-- First-occurrence deduplication from an empty seen set. -/
def dedupFirst (l : List String) : List String := dedupFirstAux [] l

/-- per_match_teams insertion: add a team to the set recorded for a url,
creating the entry at the end on first sight (dict insertion order). -/
def addTeam : List (String × List String) → String → String → List (String × List String)
  | [], url, team => [(url, [team])]
  | (u, ts) :: rest, url, team =>
    if u = url then (u, if ts.contains team then ts else ts ++ [team]) :: rest
    else (u, ts) :: addTeam rest url team

/-- normalize_and_check_appearance.py main, row loop: normalize each
row's team name and record it under the row's matchUrl when that url is
non-empty. -/
def pmtAux (pmt : List (String × List String)) : List SnapRow → List (String × List String)
  | [] => pmt
  | r :: rest =>
    pmtAux (if r.matchUrl = "" then pmt else addTeam pmt r.matchUrl (normalize_team r.teamName)) rest

/-- per_match_teams: matchUrl to recorded distinct team names, keys in
first-appearance order. -/
def per_match_teams (rows : List SnapRow) : List (String × List String) :=
  pmtAux [] rows

/-- present_urls: the urls with at least one snapshot row. -/
def present_urls (rows : List SnapRow) : List String :=
  (per_match_teams rows).map Prod.fst

/-- missing_urls: fixtures with no extracted data, sorted. -/
def missing_urls (fixture_urls : List String) (rows : List SnapRow) : List String :=
  List.insertionSort strle
    ((dedupFirst fixture_urls).filter (fun u => !(present_urls rows).contains u))

/-- extra_urls: snapshot urls not in the fixture list, sorted. -/
def extra_urls (fixture_urls : List String) (rows : List SnapRow) : List String :=
  List.insertionSort strle
    ((present_urls rows).filter (fun u => !(dedupFirst fixture_urls).contains u))

/-- incomplete_matches: every recorded match whose distinct-team count is
not two, with its sorted team list, in per_match_teams order. -/
def incomplete_matches (rows : List SnapRow) : List (String × List String) :=
  (per_match_teams rows).filterMap
    (fun p => if p.2.length ≠ 2 then some (p.1, List.insertionSort strle p.2) else none)

/-- The non-empty matchUrl values of the snapshot rows, in row order. -/
def validUrls (rows : List SnapRow) : List String :=
  rows.filterMap (fun r => if r.matchUrl = "" then none else some r.matchUrl)

/- ------------------------------------------------------------------ -/
/- Helper lemmas                                                      -/
/- ------------------------------------------------------------------ -/

/-- The per-table loop of extract_from_html skips a caption-less table. -/
theorem processTables_cons_none (starters : List String) (mid murl : String)
    (t : StatsTable) (rest : List StatsTable) (played : List String)
    (hc : t.caption = none) :
    processTables starters mid murl (t :: rest) played =
      processTables starters mid murl rest played := by
  conv_lhs => unfold processTables
  rw [hc]

/-- The lineup override applied by the per-table loop of
extract_from_html. -/
def overrideRows (starters : List String) (rows0 : List AppearanceRow) : List AppearanceRow :=
  if starters.isEmpty then rows0
  else rows0.map (fun r => { r with started := starters.contains r.playerName })

/-- The per-table loop of extract_from_html on a captioned table. -/
theorem processTables_cons_some (starters : List String) (mid murl cap : String)
    (t : StatsTable) (rest : List StatsTable) (played : List String)
    (hc : t.caption = some cap) :
    processTables starters mid murl (t :: rest) played =
      (overrideRows starters (extract_player_rows_from_table t (teamFromCaption cap) mid murl) ++
         (processTables starters mid murl rest
           (played ++ (overrideRows starters
             (extract_player_rows_from_table t (teamFromCaption cap) mid murl)).map
               (fun r => r.playerName))).1,
       (processTables starters mid murl rest
         (played ++ (overrideRows starters
           (extract_player_rows_from_table t (teamFromCaption cap) mid murl)).map
             (fun r => r.playerName))).2) := by
  conv_lhs => unfold processTables
  rw [hc]
  rfl

/-- When the starter set is non-empty, every overridden row's started
flag is starter membership of its player name. -/
theorem overrideRows_started (starters : List String) (rows0 : List AppearanceRow)
    (h : starters ≠ []) :
    ∀ r ∈ overrideRows starters rows0, r.started = starters.contains r.playerName := by
  intro r hr
  unfold overrideRows at hr
  rw [if_neg (by simpa [List.isEmpty_iff] using h)] at hr
  obtain ⟨a, _, rfl⟩ := List.mem_map.mp hr
  rfl

/-- With a non-empty starter set, every row produced by the per-table
loop has its started flag equal to starter membership. -/
theorem processTables_override (starters : List String) (mid murl : String)
    (h : starters ≠ []) :
    ∀ (tables : List StatsTable) (played : List String),
      ∀ r ∈ (processTables starters mid murl tables played).1,
        r.started = starters.contains r.playerName := by
  intro tables
  induction tables with
  | nil => intro played r hr; simp [processTables] at hr
  | cons t rest ih =>
    intro played r hr
    cases hc : t.caption with
    | none =>
      rw [processTables_cons_none starters mid murl t rest played hc] at hr
      exact ih played r hr
    | some cap =>
      rw [processTables_cons_some starters mid murl cap t rest played hc] at hr
      rcases List.mem_append.mp hr with h1 | h2
      · exact overrideRows_started starters _ h r h1
      · exact ih _ r h2

/- ------------------------------------------------------------------ -/
/- C1                                                                 -/
/- ------------------------------------------------------------------ -/

/-- C1: when the resolved lineup starter set of a document is non-empty,
every AppearanceRow extracted from every located stats table of the
document has started equal to membership of its player name in the
starter set, whatever the internal Bench-divider position of its table. -/
theorem C1_lineup_override (doc : MatchDoc) (murl : String)
    (h : get_lineup_starters doc ≠ []) :
    ∀ r ∈ (table_results doc murl).1,
      r.started = (get_lineup_starters doc).contains r.playerName := by
  intro r hr
  unfold table_results at hr
  exact processTables_override (get_lineup_starters doc) (matchIdOf murl) murl h
    (candidate_tables doc) [] r hr

/-- A concrete document for the C1 witness: one lineup (starter A, bench
B) and one stats table listing A before the bench divider and B after
it. -/
def docC1 : MatchDoc :=
  MatchDoc.mk
    [StatsTable.mk "stats_x_summary" (some "TeamX Player Stats")
      (some [TableRow.mk false false false (some "B") (some "90") none none,
             TableRow.mk true true false none none none none,
             TableRow.mk false false false (some "A") (some "12") none none])]
    []
    [some (LineupTable.mk
      [LineupRow.mk (some "TeamX (4-4-2)") [],
       LineupRow.mk none ["1", "A"],
       LineupRow.mk (some "Bench") [],
       LineupRow.mk none ["2", "B"]])]

/-- Witness for C1 at a concrete document whose table order disagrees
with the lineup. -/
theorem C1_lineup_override_witness :
    get_lineup_starters docC1 ≠ [] ∧
    ∀ r ∈ (table_results docC1 "u").1,
      r.started = (get_lineup_starters docC1).contains r.playerName :=
  ⟨by decide, C1_lineup_override docC1 "u" (by decide)⟩

/- ------------------------------------------------------------------ -/
/- C9                                                                 -/
/- ------------------------------------------------------------------ -/

/-- C9: a located stats table without a caption element contributes zero
rows and raises nothing; the extractor skips it and continues with the
remaining candidate tables, with rows and played-player set unchanged. -/
theorem C9_no_caption_skipped (starters : List String) (mid murl : String)
    (t : StatsTable) (rest : List StatsTable) (played : List String)
    (h : t.caption = none) :
    processTables starters mid murl (t :: rest) played =
      processTables starters mid murl rest played :=
  processTables_cons_none starters mid murl t rest played h

/-- Witness for C9 at a concrete caption-less table with a nonempty
tbody. -/
theorem C9_no_caption_skipped_witness :
    processTables [] "m" "u"
      [StatsTable.mk "stats_a_summary" none
        (some [TableRow.mk false false false (some "P") (some "90") none none])] [] =
      ([], []) := by
  rw [C9_no_caption_skipped [] "m" "u" _ [] [] rfl]
  rfl

/- ------------------------------------------------------------------ -/
/- C7                                                                 -/
/- ------------------------------------------------------------------ -/

/-- C7 is refuted on the minutes side: int() strips whitespace and
accepts a sign before the digits, so the non-digit-prefixed texts
consisting of a space then 90, and of a minus then 5, do not map to
absent but to 90 and -5. -/
theorem C7_counterexample :
    parse_minutes " 90" = some 90 ∧ " 90".toList.head? = some ' ' ∧ (' ').isDigit = false ∧
    parse_minutes "-5" = some (-5) ∧ "-5".toList.head? = some '-' ∧ ('-').isDigit = false := by
  decide

/-- C7 (amended): the numeric parsers are total; minutes parsing maps 90
to 90, 90+2 to 90 and the empty text to absent, and maps to absent every
text that the int() attempt rejects and that does not start with a digit
(whitespace-padded or signed integers such as a space then 90 still
parse through int()); metric parsing maps the empty text and a lone dash
to absent, maps 1,234 to 1234 by removing comma separators before
reparsing, and maps to absent every input that fails both float()
attempts. -/
theorem C7_amended :
    parse_minutes "90" = some 90 ∧ parse_minutes "90+2" = some 90 ∧ parse_minutes "" = none ∧
    (∀ s : String, pyIntParse s = none →
      (∀ c, s.toList.head? = some c → c.isDigit = false) → parse_minutes s = none) ∧
    parse_float (some "") = none ∧ parse_float (some "-") = none ∧
    parse_float (some "1,234") = some 1234 ∧
    (∀ s : String, pyFloatParse (pyStrip s) = none →
      pyFloatParse (pyReplace (pyStrip s) "," "") = none → parse_float (some s) = none) := by
  refine ⟨by decide, by decide, by decide, ?_, by decide, by decide, by decide, ?_⟩
  · intro s h1 h2
    unfold parse_minutes
    by_cases hs : s = ""
    · simp [hs]
    · rw [if_neg hs, h1]
      cases hl : s.toList with
      | nil => simp
      | cons c cs =>
        have hc := h2 c (by rw [hl]; rfl)
        simp [List.takeWhile, hc]
  · intro s h1 h2
    show (if pyStrip s = "" ∨ pyStrip s = "-" then none
      else
        match pyFloatParse (pyStrip s) with
        | some v => some v
        | none => pyFloatParse (pyReplace (pyStrip s) "," "")) = none
    by_cases hc : pyStrip s = "" ∨ pyStrip s = "-"
    · rw [if_pos hc]
    · rw [if_neg hc, h1]
      exact h2

/-- Witness for the amended C7 on inputs rejected by both parsers. -/
theorem C7_amended_witness :
    parse_minutes "abc" = none ∧ parse_float (some "1.2.3") = none :=
  ⟨C7_amended.2.2.2.1 "abc" (by decide) (by decide),
   C7_amended.2.2.2.2.2.2.2 "1.2.3" (by decide) (by decide)⟩

/- ------------------------------------------------------------------ -/
/- C3 and C10                                                         -/
/- ------------------------------------------------------------------ -/

/-- The rebuild loop appends exactly the decodable lines, in order. -/
theorem rebuild_loop_eq_filterMap {R : Type} (decode : String → Option R) :
    ∀ (lines : List String) (acc : List R),
      rebuild_loop decode lines acc = acc ++ lines.filterMap decode := by
  intro lines
  induction lines with
  | nil => intro acc; simp [rebuild_loop]
  | cons l rest ih =>
    intro acc
    unfold rebuild_loop
    cases h : decode l with
    | some r => simp [h, ih, List.filterMap_cons]
    | none => simp [h, ih, List.filterMap_cons]

/-- C3: snapshot rebuild writes exactly the records of the log lines
that parse, in log order, never failing on a malformed line; on a log of
only well-formed records it reproduces exactly those records in order. -/
theorem C3_rebuild_round_trip (R : Type) (decode : String → Option R) (encode : R → String)
    (hinv : ∀ r, decode (encode r) = some r) (records : List R) :
    rebuild_full_json_from_jsonl decode (some (records.map encode)) = records ∧
    ∀ lines : List String,
      rebuild_full_json_from_jsonl decode (some lines) = lines.filterMap decode := by
  constructor
  · show rebuild_loop decode (records.map encode) [] = records
    rw [rebuild_loop_eq_filterMap, List.filterMap_map, List.nil_append]
    have he : (fun x => decode (encode x)) = fun x => some x := funext hinv
    calc List.filterMap (decode ∘ encode) records
        = List.filterMap (fun x => some x) records := by
          rw [show (decode ∘ encode) = fun x => decode (encode x) from rfl, he]
      _ = records := by simp
  · intro lines
    show rebuild_loop decode lines [] = lines.filterMap decode
    rw [rebuild_loop_eq_filterMap, List.nil_append]

/-- Witness for C3 with the identity record coding. -/
theorem C3_rebuild_round_trip_witness :
    rebuild_full_json_from_jsonl (fun s => some s) (some (["a", "b"].map (fun s => s))) =
      ["a", "b"] ∧
    rebuild_full_json_from_jsonl (fun s => some s) (some ["c"]) =
      ["c"].filterMap (fun s => some s) :=
  ⟨(C3_rebuild_round_trip String (fun s => some s) (fun s => s) (fun _ => rfl) ["a", "b"]).1,
   (C3_rebuild_round_trip String (fun s => some s) (fun s => s) (fun _ => rfl) ["a", "b"]).2 ["c"]⟩

/-- C10: when the append-log file does not exist, snapshot rebuild
succeeds and the snapshot written is the empty array. -/
theorem C10_rebuild_missing_log (R : Type) (decode : String → Option R) :
    rebuild_full_json_from_jsonl decode none = [] := rfl


/- ------------------------------------------------------------------ -/
/- C6                                                                 -/
/- ------------------------------------------------------------------ -/

def benchListed : List LineupRow → Bool → List String
  | [], _ => []
  | r :: rest, seenBench =>
    if thHasBench r then benchListed rest true
    else if !seenBench then benchListed rest seenBench
    else
      match r.tds[1]? with
      | none => benchListed rest seenBench
      | some name =>
        if name = "" then benchListed rest seenBench
        else name :: benchListed rest seenBench

/-- Bench-listed (team, player) pairs across the document's lineup
sections, teams read from the stripped lineup headers. -/
def benchListedDoc (lineups : List (Option LineupTable)) : List (String × String) :=
  lineups.flatMap (fun lt? =>
    match lt? with
    | none => []
    | some lt =>
      match lineupFirstTh lt with
      | none => []
      | some hdr => (benchListed lt.rows false).map (fun n => (teamFromHeader hdr, n)))

theorem unused_subs_loop_names (team mid murl : String) (played : List String) :
    ∀ (rows : List LineupRow) (seen : Bool),
      (unused_subs_loop team mid murl played rows seen).map (fun r => (r.teamName, r.playerName)) =
        ((benchListed rows seen).filter (fun n => !played.contains n)).map
          (fun n => (team, n)) := by
  intro rows
  induction rows with
  | nil => intro seen; rfl
  | cons r rest ih =>
    intro seen
    unfold unused_subs_loop benchListed
    cases hb : thHasBench r with
    | true =>
      simp only [hb, if_pos rfl]
      exact ih true
    | false =>
      simp only [hb, if_neg (by decide : ¬ (false = true))]
      cases seen with
      | false =>
        simp only [if_pos (by decide : (!false) = true)]
        exact ih false
      | true =>
        simp only [if_neg (by decide : ¬ ((!true) = true))]
        cases ht : r.tds[1]? with
        | none =>
          simp only [ht]
          exact ih true
        | some name =>
          simp only [ht]
          by_cases hn : name = ""
          · simp only [if_pos hn]
            exact ih true
          · simp only [if_neg hn]
            rw [List.filter_cons]
            cases hp : played.contains name with
            | true =>
              rw [if_pos (rfl : true = true), if_neg (by decide : ¬ ((!true) = true))]
              exact ih true
            | false =>
              rw [if_neg (by decide : ¬ (false = true)), if_pos (by decide : (!false) = true),
                  List.map_cons, List.map_cons, ih true]

/-- Every synthetic row from the collector loop has started false, the
numeric fields absent, inSquad true and the lineup team name. -/
theorem unused_subs_loop_fields (team mid murl : String) (played : List String) :
    ∀ (rows : List LineupRow) (seen : Bool) (r : AppearanceRow),
      r ∈ unused_subs_loop team mid murl played rows seen →
      r.started = false ∧ r.minutes_played = none ∧ r.npXg = none ∧ r.xAG = none ∧
        r.in_squad = true ∧ r.teamName = team := by
  intro rows
  induction rows with
  | nil => intro seen r hr; simp [unused_subs_loop] at hr
  | cons q rest ih =>
    intro seen r hr
    unfold unused_subs_loop at hr
    by_cases hb : thHasBench q = true
    · rw [hb, if_pos rfl] at hr
      exact ih true r hr
    · have hb' : thHasBench q = false := by simpa using hb
      rw [hb', if_neg (by decide : ¬ (false = true))] at hr
      cases seen with
      | false =>
        rw [if_pos (by decide : (!false) = true)] at hr
        exact ih false r hr
      | true =>
        rw [if_neg (by decide : ¬ ((!true) = true))] at hr
        cases ht : q.tds[1]? with
        | none =>
          simp only [ht] at hr
          exact ih true r hr
        | some name =>
          simp only [ht] at hr
          by_cases hn : name = ""
          · rw [if_pos hn] at hr
            exact ih true r hr
          · rw [if_neg hn] at hr
            cases hp : played.contains name with
            | true =>
              rw [hp, if_pos rfl] at hr
              exact ih true r hr
            | false =>
              rw [hp, if_neg (by decide : ¬ (false = true))] at hr
              rcases List.mem_cons.mp hr with hr1 | hr2
              · subst hr1
                exact ⟨rfl, rfl, rfl, rfl, rfl, rfl⟩
              · exact ih true r hr2

/-- Document level: the collector's rows are, as (team, player) pairs,
exactly the bench-listed pairs outside the played set. -/
theorem extract_unused_subs_names (played : List String) (mid murl : String) :
    ∀ lineups : List (Option LineupTable),
      (extract_unused_subs_from_lineups lineups played mid murl).map
          (fun r => (r.teamName, r.playerName)) =
        (benchListedDoc lineups).filter (fun p => !played.contains p.2) := by
  intro lineups
  induction lineups with
  | nil => rfl
  | cons lt? rest ih =>
    show (((match lt? with
            | none => []
            | some lt =>
              match lineupFirstTh lt with
              | none => []
              | some hdr =>
                unused_subs_loop (teamFromHeader hdr) mid murl played lt.rows false) ++
          extract_unused_subs_from_lineups rest played mid murl).map
            (fun r => (r.teamName, r.playerName))) =
        ((match lt? with
          | none => []
          | some lt =>
            match lineupFirstTh lt with
            | none => []
            | some hdr => (benchListed lt.rows false).map (fun n => (teamFromHeader hdr, n))) ++
          benchListedDoc rest).filter (fun p => !played.contains p.2)
    rw [List.map_append, List.filter_append]
    congr 1
    · cases lt? with
      | none => rfl
      | some lt =>
        cases hh : lineupFirstTh lt with
        | none =>
          simp only [hh]
          rfl
        | some hdr =>
          simp only [hh]
          rw [unused_subs_loop_names, List.filter_map]
          rfl

/-- Document level: every synthetic unused-substitute row has started
false, the numeric fields absent and inSquad true. -/
theorem extract_unused_subs_fields (lineups : List (Option LineupTable))
    (played : List String) (mid murl : String) :
    ∀ r ∈ extract_unused_subs_from_lineups lineups played mid murl,
      r.started = false ∧ r.minutes_played = none ∧ r.npXg = none ∧ r.xAG = none ∧
        r.in_squad = true := by
  intro r hr
  unfold extract_unused_subs_from_lineups at hr
  rw [List.mem_flatMap] at hr
  obtain ⟨lt?, _, hr2⟩ := hr
  cases lt? with
  | none => simp at hr2
  | some lt =>
    cases hh : lineupFirstTh lt with
    | none => simp only [hh] at hr2; simp at hr2
    | some hdr =>
      simp only [hh] at hr2
      have h6 := unused_subs_loop_fields (teamFromHeader hdr) mid murl played lt.rows false r hr2
      exact ⟨h6.1, h6.2.1, h6.2.2.1, h6.2.2.2.1, h6.2.2.2.2.1⟩

/-- The played set returned by the per-table loop is its starting value
followed by the player names of the extracted rows. -/
theorem processTables_played (starters : List String) (mid murl : String) :
    ∀ (tables : List StatsTable) (played : List String),
      (processTables starters mid murl tables played).2 =
        played ++ ((processTables starters mid murl tables played).1).map
          (fun r => r.playerName) := by
  intro tables
  induction tables with
  | nil => intro played; simp [processTables]
  | cons t rest ih =>
    intro played
    cases hc : t.caption with
    | none =>
      rw [processTables_cons_none starters mid murl t rest played hc]
      exact ih played
    | some cap =>
      rw [processTables_cons_some starters mid murl cap t rest played hc]
      dsimp only
      rw [ih, List.map_append, List.append_assoc]

/-- C6: the played set of a document is exactly the player names of its
stats-table rows; every bench-listed lineup player outside that set
yields exactly one synthetic AppearanceRow carrying the lineup header
team name (formation annotation stripped); and every synthetic row has
started false, minutesPlayed, npxG and xAG absent, and inSquad true. -/
theorem C6_unused_subs (doc : MatchDoc) (murl : String) :
    (table_results doc murl).2 = ((table_results doc murl).1).map (fun r => r.playerName) ∧
    ((extract_unused_subs_from_lineups doc.lineups (table_results doc murl).2
        (matchIdOf murl) murl).map (fun r => (r.teamName, r.playerName)) =
      (benchListedDoc doc.lineups).filter
        (fun p => !((table_results doc murl).2).contains p.2)) ∧
    ∀ r ∈ extract_unused_subs_from_lineups doc.lineups (table_results doc murl).2
        (matchIdOf murl) murl,
      r.started = false ∧ r.minutes_played = none ∧ r.npXg = none ∧ r.xAG = none ∧
        r.in_squad = true := by
  refine ⟨?_, ?_, ?_⟩
  · show (processTables (get_lineup_starters doc) (matchIdOf murl) murl
        (candidate_tables doc) []).2 = _
    rw [processTables_played]
    rfl
  · exact extract_unused_subs_names ((table_results doc murl).2) (matchIdOf murl) murl
      doc.lineups
  · exact extract_unused_subs_fields doc.lineups ((table_results doc murl).2)
      (matchIdOf murl) murl

/-- A concrete document for the C6 witness: no stats tables, one lineup
whose bench lists player X. -/
def docC6 : MatchDoc :=
  MatchDoc.mk [] []
    [some (LineupTable.mk
      [LineupRow.mk (some "TeamY (4-3-3)") [],
       LineupRow.mk (some "Bench") [],
       LineupRow.mk none ["7", "X"]])]

/-- Witness for C6: the single synthetic row of the concrete document
has the claimed field values. -/
theorem C6_unused_subs_witness :
    (AppearanceRow.mk "" "u" "X" "TeamY" true false none none none).started = false ∧
    (AppearanceRow.mk "" "u" "X" "TeamY" true false none none none).minutes_played = none ∧
    (AppearanceRow.mk "" "u" "X" "TeamY" true false none none none).npXg = none ∧
    (AppearanceRow.mk "" "u" "X" "TeamY" true false none none none).xAG = none ∧
    (AppearanceRow.mk "" "u" "X" "TeamY" true false none none none).in_squad = true :=
  (C6_unused_subs docC6 "u").2.2
    (AppearanceRow.mk "" "u" "X" "TeamY" true false none none none) (by decide)

/- ------------------------------------------------------------------ -/
/- C2                                                                 -/
/- ------------------------------------------------------------------ -/

/-- The world of the C2 counterexample: every url yields a successfully
fetched and parsed document with zero extracted rows, except u6, which
fails to fetch. -/
def worldC2 : String → DocOutcome :=
  fun url => if url = "u6" then DocOutcome.fetchFail else DocOutcome.parsed []

/-- C2 is refuted: after five consecutive zero-row documents the
consecutive-failure counter has reached the cutoff, yet the next url u6
is still fetched, because the zero-row branch performs no cutoff
check. -/
theorem C2_counterexample :
    (main_loop worldC2 ["u1", "u2", "u3", "u4", "u5"]
        (LoopState.mk [] [] [] 0 [])).consecutive_fails = CONSECUTIVE_FAIL_CUTOFF ∧
    "u6" ∈ (main_loop worldC2 ["u1", "u2", "u3", "u4", "u5", "u6"]
        (LoopState.mk [] [] [] 0 [])).fetched := by
  decide

/-- The log of the main loop only ever grows by appending. -/
theorem main_loop_log_grows (world : String → DocOutcome) :
    ∀ (urls : List String) (st : LoopState), st.log <+: (main_loop world urls st).log := by
  intro urls
  induction urls with
  | nil => intro st; exact List.prefix_refl _
  | cons url rest ih =>
    intro st
    unfold main_loop
    by_cases hp : st.processed.contains url = true
    · rw [if_pos hp]
      exact ih st
    · rw [if_neg hp]
      cases world url with
      | fetchFail =>
        dsimp only
        by_cases hc : CONSECUTIVE_FAIL_CUTOFF ≤ st.consecutive_fails + 1
        · rw [if_pos hc]
        · rw [if_neg hc]
          exact ih ⟨st.processed, st.log, st.failLog ++ [(url, "fetch_failed")],
            st.consecutive_fails + 1, st.fetched ++ [url]⟩
      | parseError =>
        dsimp only
        by_cases hc : CONSECUTIVE_FAIL_CUTOFF ≤ st.consecutive_fails + 1
        · rw [if_pos hc]
        · rw [if_neg hc]
          exact ih ⟨st.processed, st.log, st.failLog ++ [(url, "parse_error")],
            st.consecutive_fails + 1, st.fetched ++ [url]⟩
      | parsed rows =>
        dsimp only
        by_cases he : rows.isEmpty = true
        · rw [if_pos he]
          exact ih ⟨st.processed, st.log, st.failLog ++ [(url, "no_rows")],
            st.consecutive_fails + 1, st.fetched ++ [url]⟩
        · rw [if_neg he]
          exact (List.prefix_append st.log rows).trans
            (ih ⟨st.processed ++ [url], st.log ++ rows, st.failLog, 0, st.fetched ++ [url]⟩)

/-- A zero-row document never halts the loop by itself: it records the
failure, bumps the counter and moves on to the next url. -/
theorem main_loop_no_rows_step (world : String → DocOutcome) (url : String)
    (rest : List String) (st : LoopState) (rows : List AppearanceRow)
    (hnp : url ∉ st.processed) (hrow : world url = DocOutcome.parsed rows)
    (he : rows.isEmpty = true) :
    main_loop world (url :: rest) st =
      main_loop world rest
        { st with fetched := st.fetched ++ [url],
                  failLog := st.failLog ++ [(url, "no_rows")],
                  consecutive_fails := st.consecutive_fails + 1 } := by
  have hcf : st.processed.contains url = false := by simpa using hnp
  unfold main_loop
  rw [hcf, if_neg (by decide : ¬ (false = true))]
  simp only [hrow]
  rw [if_pos he]
  conv_lhs => rw [main_loop.eq_def]

/-- C2 (amended): the circuit breaker halts the run at a fetch failure
or parse error whose recorded failure brings the consecutive-failure
counter to the cutoff: no url after it is fetched, the log is exactly
the rows appended so far, and the final counter equals the cutoff-level
count.  A zero-row extraction bumps the counter without any cutoff
check, so it never halts by itself; and in every run the log only grows
by appending, so rows appended before a halt are preserved. -/
theorem C2_amended (world : String → DocOutcome) (url : String) (rest : List String)
    (st : LoopState) (hnp : url ∉ st.processed)
    (hfail : world url = DocOutcome.fetchFail ∨ world url = DocOutcome.parseError)
    (hcut : CONSECUTIVE_FAIL_CUTOFF ≤ st.consecutive_fails + 1) :
    (main_loop world (url :: rest) st).fetched = st.fetched ++ [url] ∧
    (main_loop world (url :: rest) st).log = st.log ∧
    (main_loop world (url :: rest) st).consecutive_fails = st.consecutive_fails + 1 ∧
    (∀ (url2 : String) (rest2 : List String) (st2 : LoopState) (rows : List AppearanceRow),
      url2 ∉ st2.processed → world url2 = DocOutcome.parsed rows → rows.isEmpty = true →
      main_loop world (url2 :: rest2) st2 =
        main_loop world rest2
          { st2 with fetched := st2.fetched ++ [url2],
                     failLog := st2.failLog ++ [(url2, "no_rows")],
                     consecutive_fails := st2.consecutive_fails + 1 }) ∧
    (∀ (urls2 : List String) (st2 : LoopState), st2.log <+: (main_loop world urls2 st2).log) := by
  have hcf : st.processed.contains url = false := by simpa using hnp
  have hstep : ∃ fl : String, main_loop world (url :: rest) st =
      { st with fetched := st.fetched ++ [url],
                failLog := st.failLog ++ [(url, fl)],
                consecutive_fails := st.consecutive_fails + 1 } := by
    rcases hfail with h | h
    · refine ⟨"fetch_failed", ?_⟩
      unfold main_loop
      rw [hcf, if_neg (by decide : ¬ (false = true))]
      simp only [h]
      rw [if_pos hcut]
    · refine ⟨"parse_error", ?_⟩
      unfold main_loop
      rw [hcf, if_neg (by decide : ¬ (false = true))]
      simp only [h]
      rw [if_pos hcut]
  obtain ⟨fl, hstep⟩ := hstep
  exact ⟨by rw [hstep], by rw [hstep], by rw [hstep],
    fun url2 rest2 st2 rows h1 h2 h3 => main_loop_no_rows_step world url2 rest2 st2 rows h1 h2 h3,
    main_loop_log_grows world⟩

/-- Witness for the amended C2: a fetch failure at counter four halts a
concrete run, fetching only the failing url and leaving the log as it
was. -/
theorem C2_amended_witness :
    (main_loop (fun _ => DocOutcome.fetchFail) ["u", "v"]
        (LoopState.mk [] [] [] 4 [])).fetched = [] ++ ["u"] ∧
    (main_loop (fun _ => DocOutcome.fetchFail) ["u", "v"]
        (LoopState.mk [] [] [] 4 [])).log = [] := by
  have h := C2_amended (fun _ => DocOutcome.fetchFail) "u" ["v"] (LoopState.mk [] [] [] 4 [])
    (by decide) (Or.inl rfl) (by decide)
  exact ⟨h.1, h.2.1⟩

/- ------------------------------------------------------------------ -/
/- C8                                                                 -/
/- ------------------------------------------------------------------ -/

/-- C8: a document whose rows are all already in the log is indexed
under its url, so the main loop skips it without fetching or appending,
and a single-document re-run leaves the log unchanged; likewise the
bench-augmentation pass selects no new row from a document whose keys
are all already indexed. -/
theorem C8_idempotent (world : String → DocOutcome) (st : LoopState) (url : String)
    (rest : List String) (logRows rows0 : List AppearanceRow)
    (hidx : st.processed = load_already_processed_urls logRows)
    (hne : rows0 ≠ []) (hrows : ∀ r ∈ rows0, r ∈ logRows ∧ r.matchUrl = url) :
    main_loop world (url :: rest) st = main_loop world rest st ∧
    (main_loop world [url] st).log = st.log ∧
    (∀ (existing : List (String × String)) (rs : List AppearanceRow),
      (∀ r ∈ rs, (r.playerName, r.teamName) ∈ existing) →
      augment_new_rows existing rs = []) := by
  have hmem : url ∈ st.processed := by
    obtain ⟨r, hr⟩ := List.exists_mem_of_ne_nil rows0 hne
    obtain ⟨hr1, hr2⟩ := hrows r hr
    rw [hidx]
    exact List.mem_map.mpr ⟨r, hr1, hr2⟩
  have hc : st.processed.contains url = true := by simpa using hmem
  have hskip : main_loop world (url :: rest) st = main_loop world rest st := by
    conv_lhs => rw [main_loop.eq_def]
    simp only [hc]
    rw [if_pos trivial]
  refine ⟨hskip, ?_, ?_⟩
  · have h1 : main_loop world [url] st = main_loop world [] st := by
      conv_lhs => rw [main_loop.eq_def]
      simp only [hc]
      rw [if_pos trivial]
    rw [h1]
    rfl
  · intro existing rs hall
    unfold augment_new_rows
    rw [List.filter_eq_nil_iff]
    intro r hr
    have hk := hall r hr
    simp [hk]

/-- Witness for C8 at a one-row log whose url is indexed. -/
theorem C8_idempotent_witness :
    main_loop (fun _ => DocOutcome.parsed []) ["u"]
        (LoopState.mk ["u"] [AppearanceRow.mk "" "u" "P" "T" true true none none none] [] 0 []) =
      main_loop (fun _ => DocOutcome.parsed [])
        [] (LoopState.mk ["u"] [AppearanceRow.mk "" "u" "P" "T" true true none none none] [] 0 []) ∧
    (main_loop (fun _ => DocOutcome.parsed []) ["u"]
        (LoopState.mk ["u"] [AppearanceRow.mk "" "u" "P" "T" true true none none none] [] 0 [])).log =
      [AppearanceRow.mk "" "u" "P" "T" true true none none none] ∧
    augment_new_rows [("P", "T")] [AppearanceRow.mk "" "u" "P" "T" true false none none none] = [] := by
  have h := C8_idempotent (fun _ => DocOutcome.parsed [])
    (LoopState.mk ["u"] [AppearanceRow.mk "" "u" "P" "T" true true none none none] [] 0 [])
    "u" [] [AppearanceRow.mk "" "u" "P" "T" true true none none none]
    [AppearanceRow.mk "" "u" "P" "T" true true none none none]
    rfl (by decide) (by decide)
  exact ⟨h.1, h.2.1, h.2.2 [("P", "T")]
    [AppearanceRow.mk "" "u" "P" "T" true false none none none] (by decide)⟩

/- ------------------------------------------------------------------ -/
/- Order and dictionary infrastructure for the reconciler             -/
/- ------------------------------------------------------------------ -/

/-- The code-point order is total. -/
theorem lexLe_total : ∀ a b : List Char, lexLe a b = true ∨ lexLe b a = true := by
  intro a
  induction a with
  | nil => intro b; left; rfl
  | cons a as ih =>
    intro b
    cases b with
    | nil => right; rfl
    | cons b bs =>
      unfold lexLe
      rcases Nat.lt_trichotomy a.toNat b.toNat with h | h | h
      · left; rw [if_pos h]
      · have h1 : ¬ a.toNat < b.toNat := by omega
        have h2 : ¬ b.toNat < a.toNat := by omega
        rw [if_neg h1, if_neg h2, if_neg h2, if_neg h1]
        exact ih bs
      · right; rw [if_pos h]

/-- The code-point order is transitive. -/
theorem lexLe_trans : ∀ a b c : List Char,
    lexLe a b = true → lexLe b c = true → lexLe a c = true := by
  intro a
  induction a with
  | nil => intro b c _ _; rfl
  | cons a as ih =>
    intro b c h1 h2
    cases b with
    | nil => exact absurd h1 (by simp [lexLe])
    | cons b bs =>
      cases c with
      | nil => exact absurd h2 (by simp [lexLe])
      | cons c cs =>
        unfold lexLe at h1 h2 ⊢
        by_cases hab : a.toNat < b.toNat
        · by_cases hbc : b.toNat < c.toNat
          · rw [if_pos (by omega : a.toNat < c.toNat)]
          · by_cases hcb : c.toNat < b.toNat
            · rw [if_neg hbc, if_pos hcb] at h2
              exact absurd h2 (by simp)
            · rw [if_pos (by omega : a.toNat < c.toNat)]
        · by_cases hba : b.toNat < a.toNat
          · rw [if_neg hab, if_pos hba] at h1
            exact absurd h1 (by simp)
          · rw [if_neg hab, if_neg hba] at h1
            by_cases hbc : b.toNat < c.toNat
            · rw [if_pos (by omega : a.toNat < c.toNat)]
            · by_cases hcb : c.toNat < b.toNat
              · rw [if_neg hbc, if_pos hcb] at h2
                exact absurd h2 (by simp)
              · rw [if_neg hbc, if_neg hcb] at h2
                rw [if_neg (by omega : ¬ a.toNat < c.toNat),
                    if_neg (by omega : ¬ c.toNat < a.toNat)]
                exact ih bs cs h1 h2

instance : IsTotal String strle := ⟨fun a b => lexLe_total a.toList b.toList⟩

instance : IsTrans String strle := ⟨fun a b c => lexLe_trans a.toList b.toList c.toList⟩

/-- Membership in first-occurrence deduplication. -/
theorem mem_dedupFirstAux :
    ∀ (l seen : List String) (a : String),
      a ∈ dedupFirstAux seen l ↔ a ∈ l ∧ a ∉ seen := by
  intro l
  induction l with
  | nil => intro seen a; simp [dedupFirstAux]
  | cons b rest ih =>
    intro seen a
    unfold dedupFirstAux
    by_cases hb : seen.contains b = true
    · rw [if_pos hb, ih]
      have hbs : b ∈ seen := by simpa using hb
      constructor
      · rintro ⟨h1, h2⟩
        exact ⟨List.mem_cons_of_mem b h1, h2⟩
      · rintro ⟨h1, h2⟩
        rcases List.mem_cons.mp h1 with rfl | h1'
        · exact absurd hbs h2
        · exact ⟨h1', h2⟩
    · rw [if_neg hb]
      have hbs : b ∉ seen := by simpa using hb
      rw [List.mem_cons, ih, List.mem_cons]
      simp only [List.mem_append, List.mem_singleton]
      constructor
      · rintro (rfl | ⟨h1, h2⟩)
        · exact ⟨Or.inl rfl, hbs⟩
        · rw [not_or] at h2
          exact ⟨Or.inr h1, h2.1⟩
      · rintro ⟨h1 | h1, h2⟩
        · exact Or.inl h1
        · by_cases hab : a = b
          · exact Or.inl hab
          · exact Or.inr ⟨h1, by rw [not_or]; exact ⟨h2, hab⟩⟩

/-- First-occurrence deduplication is duplicate-free. -/
theorem dedupFirstAux_nodup :
    ∀ (l seen : List String), (dedupFirstAux seen l).Nodup := by
  intro l
  induction l with
  | nil => intro seen; exact List.nodup_nil
  | cons b rest ih =>
    intro seen
    unfold dedupFirstAux
    by_cases hb : seen.contains b = true
    · rw [if_pos hb]
      exact ih seen
    · rw [if_neg hb]
      refine List.Nodup.cons ?_ (ih (seen ++ [b]))
      intro hmem
      have := (mem_dedupFirstAux rest (seen ++ [b]) b).mp hmem
      exact this.2 (List.mem_append.mpr (Or.inr (List.mem_singleton.mpr rfl)))

/-- addTeam does not change the key set beyond possibly appending the
url. -/
theorem addTeam_keys_of_mem :
    ∀ (pmt : List (String × List String)) (url team : String),
      url ∈ pmt.map Prod.fst →
      (addTeam pmt url team).map Prod.fst = pmt.map Prod.fst := by
  intro pmt
  induction pmt with
  | nil => intro url team h; simp at h
  | cons p rest ih =>
    intro url team h
    obtain ⟨k, ts⟩ := p
    unfold addTeam
    by_cases hk : k = url
    · rw [if_pos hk]
      rfl
    · rw [if_neg hk]
      rw [List.map_cons, List.map_cons, ih url team]
      rcases List.mem_cons.mp h with h1 | h1
      · exact absurd h1.symm hk
      · exact h1

/-- A new url is appended at the end of the key list. -/
theorem addTeam_keys_of_not_mem :
    ∀ (pmt : List (String × List String)) (url team : String),
      url ∉ pmt.map Prod.fst →
      (addTeam pmt url team).map Prod.fst = pmt.map Prod.fst ++ [url] := by
  intro pmt
  induction pmt with
  | nil => intro url team _; rfl
  | cons p rest ih =>
    intro url team h
    obtain ⟨k, ts⟩ := p
    unfold addTeam
    by_cases hk : k = url
    · exact absurd (List.mem_cons.mpr (Or.inl hk.symm)) h
    · rw [if_neg hk]
      rw [List.map_cons, List.map_cons, ih url team (fun hm => h (List.mem_cons_of_mem _ hm))]
      rfl

/-- Looking up the inserted url after addTeam. -/
theorem addTeam_lookup_self :
    ∀ (pmt : List (String × List String)) (url team : String),
      (addTeam pmt url team).lookup url =
        some (if (((pmt.lookup url).getD []).contains team) = true
              then ((pmt.lookup url).getD [])
              else ((pmt.lookup url).getD []) ++ [team]) := by
  intro pmt
  induction pmt with
  | nil =>
    intro url team
    simp [addTeam, List.lookup_cons, List.lookup_nil]
  | cons p rest ih =>
    intro url team
    obtain ⟨k, ts⟩ := p
    unfold addTeam
    by_cases hk : k = url
    · subst hk
      rw [if_pos rfl]
      simp [List.lookup_cons]
    · rw [if_neg hk]
      have hbeq : (url == k) = false := by
        simp [Ne.symm hk]
      simp only [List.lookup_cons, hbeq]
      exact ih url team

/-- Looking up a different url is unchanged by addTeam. -/
theorem addTeam_lookup_other :
    ∀ (pmt : List (String × List String)) (url team u : String), u ≠ url →
      (addTeam pmt url team).lookup u = pmt.lookup u := by
  intro pmt
  induction pmt with
  | nil =>
    intro url team u hu
    have hbeq : (u == url) = false := by simp [hu]
    simp [addTeam, List.lookup_cons, List.lookup_nil, hbeq]
  | cons p rest ih =>
    intro url team u hu
    obtain ⟨k, ts⟩ := p
    unfold addTeam
    by_cases hk : k = url
    · subst hk
      rw [if_pos rfl]
      have hbeq : (u == k) = false := by simp [hu]
      simp only [List.lookup_cons, hbeq]
    · rw [if_neg hk]
      cases hbeq : (u == k) with
      | true => simp only [List.lookup_cons, hbeq]
      | false =>
        simp only [List.lookup_cons, hbeq]
        exact ih url team u hu

/-- Membership in validUrls. -/
theorem mem_validUrls (rows : List SnapRow) (u : String) :
    u ∈ validUrls rows ↔ ∃ r ∈ rows, r.matchUrl = u ∧ u ≠ "" := by
  unfold validUrls
  rw [List.mem_filterMap]
  constructor
  · rintro ⟨r, hr, hf⟩
    by_cases hru : r.matchUrl = ""
    · rw [if_pos hru] at hf
      exact absurd hf (by simp)
    · rw [if_neg hru] at hf
      have h1 : r.matchUrl = u := by simpa using hf
      exact ⟨r, hr, h1, h1 ▸ hru⟩
  · rintro ⟨r, hr, h1, h2⟩
    refine ⟨r, hr, ?_⟩
    rw [if_neg (h1 ▸ h2), h1]

theorem validUrls_cons_empty (r : SnapRow) (rest : List SnapRow) (h : r.matchUrl = "") :
    validUrls (r :: rest) = validUrls rest := by
  unfold validUrls
  rw [List.filterMap_cons]
  simp [h]

theorem validUrls_cons_some (r : SnapRow) (rest : List SnapRow) (h : r.matchUrl ≠ "") :
    validUrls (r :: rest) = r.matchUrl :: validUrls rest := by
  unfold validUrls
  rw [List.filterMap_cons]
  simp [h]

theorem dedupFirstAux_cons_mem (seen : List String) (a : String) (l : List String)
    (h : seen.contains a = true) :
    dedupFirstAux seen (a :: l) = dedupFirstAux seen l := by
  conv_lhs => unfold dedupFirstAux
  rw [if_pos h]

theorem dedupFirstAux_cons_not_mem (seen : List String) (a : String) (l : List String)
    (h : seen.contains a = false) :
    dedupFirstAux seen (a :: l) = a :: dedupFirstAux (seen ++ [a]) l := by
  conv_lhs => unfold dedupFirstAux
  rw [h, if_neg (by decide : ¬ (false = true))]

/-- The key list built by the row loop: the starting keys followed by
the first occurrences of the new urls. -/
theorem pmtAux_keys :
    ∀ (rows : List SnapRow) (pmt : List (String × List String)),
      (pmtAux pmt rows).map Prod.fst =
        pmt.map Prod.fst ++ dedupFirstAux (pmt.map Prod.fst) (validUrls rows) := by
  intro rows
  induction rows with
  | nil => intro pmt; simp [pmtAux, dedupFirstAux, validUrls]
  | cons r rest ih =>
    intro pmt
    unfold pmtAux
    by_cases hru : r.matchUrl = ""
    · rw [if_pos hru, ih, validUrls_cons_empty r rest hru]
    · rw [if_neg hru, ih, validUrls_cons_some r rest hru]
      by_cases hmem : r.matchUrl ∈ pmt.map Prod.fst
      · rw [addTeam_keys_of_mem pmt _ _ hmem,
            dedupFirstAux_cons_mem _ _ _ (by simpa using hmem)]
      · rw [addTeam_keys_of_not_mem pmt _ _ hmem,
            dedupFirstAux_cons_not_mem _ _ _ (by simpa using hmem),
            List.append_assoc, List.singleton_append]

/-- The team list recorded for a url accumulates exactly the normalized
team names of the rows keyed by that url. -/
theorem pmtAux_lookup_mem :
    ∀ (rows : List SnapRow) (pmt : List (String × List String)) (u t : String),
      t ∈ ((pmtAux pmt rows).lookup u).getD [] ↔
        t ∈ (pmt.lookup u).getD [] ∨
          ∃ r ∈ rows, r.matchUrl = u ∧ u ≠ "" ∧ normalize_team r.teamName = t := by
  intro rows
  induction rows with
  | nil => intro pmt u t; simp [pmtAux]
  | cons r rest ih =>
    intro pmt u t
    unfold pmtAux
    by_cases hru : r.matchUrl = ""
    · rw [if_pos hru, ih, List.exists_mem_cons_iff]
      have hPr : ¬ (r.matchUrl = u ∧ u ≠ "" ∧ normalize_team r.teamName = t) := by
        rintro ⟨h1, h2, _⟩
        exact h2 (h1 ▸ hru)
      tauto
    · rw [if_neg hru, ih, List.exists_mem_cons_iff]
      by_cases huu : u = r.matchUrl
      · subst huu
        rw [addTeam_lookup_self, Option.getD_some]
        by_cases hct :
            (((pmt.lookup r.matchUrl).getD []).contains (normalize_team r.teamName)) = true
        · rw [if_pos hct]
          have hmem : normalize_team r.teamName ∈ (pmt.lookup r.matchUrl).getD [] := by
            simpa using hct
          constructor
          · exact fun h => h.elim Or.inl (fun h2 => Or.inr (Or.inr h2))
          · rintro (h | ⟨-, -, h3⟩ | h)
            · exact Or.inl h
            · exact Or.inl (h3 ▸ hmem)
            · exact Or.inr h
        · rw [if_neg hct]
          simp only [List.mem_append, List.mem_singleton]
          constructor
          · rintro ((h | h) | h)
            · exact Or.inl h
            · exact Or.inr (Or.inl ⟨by trivial, hru, h.symm⟩)
            · exact Or.inr (Or.inr h)
          · rintro (h | ⟨-, -, h3⟩ | h)
            · exact Or.inl (Or.inl h)
            · exact Or.inl (Or.inr h3.symm)
            · exact Or.inr h
      · rw [addTeam_lookup_other pmt _ _ u huu]
        have hPr : ¬ (r.matchUrl = u ∧ u ≠ "" ∧ normalize_team r.teamName = t) := by
          rintro ⟨h1, -, -⟩
          exact huu h1.symm
        tauto

/-- The recorded team lists stay duplicate-free. -/
theorem pmtAux_teams_nodup :
    ∀ (rows : List SnapRow) (pmt : List (String × List String)),
      (∀ u ts, pmt.lookup u = some ts → ts.Nodup) →
      ∀ u ts, (pmtAux pmt rows).lookup u = some ts → ts.Nodup := by
  intro rows
  induction rows with
  | nil => intro pmt h u ts hl; exact h u ts hl
  | cons r rest ih =>
    intro pmt h u ts hl
    unfold pmtAux at hl
    by_cases hru : r.matchUrl = ""
    · rw [if_pos hru] at hl
      exact ih pmt h u ts hl
    · rw [if_neg hru] at hl
      refine ih (addTeam pmt r.matchUrl (normalize_team r.teamName)) ?_ u ts hl
      intro u2 ts2 hl2
      by_cases hu2 : u2 = r.matchUrl
      · subst hu2
        rw [addTeam_lookup_self] at hl2
        have hts0 : ((pmt.lookup r.matchUrl).getD []).Nodup := by
          cases hl0 : pmt.lookup r.matchUrl with
          | none => simp
          | some ts0 =>
            rw [Option.getD_some]
            exact h r.matchUrl ts0 hl0
        by_cases hct :
            (((pmt.lookup r.matchUrl).getD []).contains (normalize_team r.teamName)) = true
        · rw [if_pos hct] at hl2
          injection hl2 with h2
          rw [← h2]
          exact hts0
        · rw [if_neg hct] at hl2
          injection hl2 with h2
          rw [← h2, ← List.concat_eq_append]
          exact List.Nodup.concat (by simpa using hct) hts0
      · rw [addTeam_lookup_other pmt _ _ u2 hu2] at hl2
        exact h u2 ts2 hl2

/-- The key list of per_match_teams is duplicate-free. -/
theorem per_match_teams_keys_nodup (rows : List SnapRow) :
    ((per_match_teams rows).map Prod.fst).Nodup := by
  unfold per_match_teams
  rw [pmtAux_keys]
  simpa using dedupFirstAux_nodup (validUrls rows) []

/-- With duplicate-free keys, association-list membership is lookup. -/
theorem pmt_mem_iff_lookup :
    ∀ (pmt : List (String × List String)), ((pmt.map Prod.fst).Nodup) →
      ∀ (u : String) (ts : List String), ((u, ts) ∈ pmt ↔ pmt.lookup u = some ts) := by
  intro pmt
  induction pmt with
  | nil => intro _ u ts; simp [List.lookup_nil]
  | cons p rest ih =>
    intro hk u ts
    obtain ⟨k, vs⟩ := p
    rw [List.map_cons] at hk
    have hk1 : k ∉ rest.map Prod.fst := (List.nodup_cons.mp hk).1
    have hk2 := (List.nodup_cons.mp hk).2
    rw [List.mem_cons, List.lookup_cons]
    by_cases hu : u = k
    · subst hu
      simp only [beq_self_eq_true]
      constructor
      · rintro (h | h)
        · have h2 : ts = vs := by simpa using h
          rw [h2]
        · exact absurd (List.mem_map.mpr ⟨(u, ts), h, rfl⟩) hk1
      · intro h
        have h2 : vs = ts := by simpa using h
        exact Or.inl (by rw [h2])
    · have hbeq : (u == k) = false := by simp [hu]
      simp only [hbeq]
      constructor
      · rintro (h | h)
        · exact absurd (by simpa using congrArg Prod.fst h) hu
        · exact (ih hk2 u ts).mp h
      · intro h
        exact Or.inr ((ih hk2 u ts).mpr h)

/- ------------------------------------------------------------------ -/
/- C4                                                                 -/
/- ------------------------------------------------------------------ -/

/-- C4: the reconciler computes missing as the fixture urls minus the
present urls and extra as the present urls minus the fixture urls; the
present urls are exactly the non-empty matchUrl values of the snapshot
rows; a match is reported incomplete, with its sorted team list, exactly
when its recorded distinct-team count differs from two; and the recorded
team list of a url is duplicate-free and holds exactly the normalized
team names of that url's rows. -/
theorem C4_reconciler (fixture_urls : List String) (rows : List SnapRow) :
    (∀ u, u ∈ missing_urls fixture_urls rows ↔ u ∈ fixture_urls ∧ u ∉ present_urls rows) ∧
    (∀ u, u ∈ extra_urls fixture_urls rows ↔ u ∈ present_urls rows ∧ u ∉ fixture_urls) ∧
    (∀ u, u ∈ present_urls rows ↔ ∃ r ∈ rows, r.matchUrl = u ∧ u ≠ "") ∧
    (∀ u ts, (u, ts) ∈ incomplete_matches rows ↔
      ∃ ts0, (per_match_teams rows).lookup u = some ts0 ∧ ts0.length ≠ 2 ∧
        ts = List.insertionSort strle ts0) ∧
    (∀ u ts0, (per_match_teams rows).lookup u = some ts0 →
      ts0.Nodup ∧ ∀ t, (t ∈ ts0 ↔
        ∃ r ∈ rows, r.matchUrl = u ∧ u ≠ "" ∧ normalize_team r.teamName = t)) := by
  have hkeys := per_match_teams_keys_nodup rows
  refine ⟨?_, ?_, ?_, ?_, ?_⟩
  · intro u
    unfold missing_urls dedupFirst
    rw [List.mem_insertionSort, List.mem_filter, mem_dedupFirstAux]
    simp
  · intro u
    unfold extra_urls dedupFirst
    rw [List.mem_insertionSort, List.mem_filter]
    simp [mem_dedupFirstAux]
  · intro u
    unfold present_urls per_match_teams
    rw [pmtAux_keys]
    simp only [List.map_nil, List.nil_append]
    rw [mem_dedupFirstAux]
    simp [mem_validUrls]
  · intro u ts
    unfold incomplete_matches
    rw [List.mem_filterMap]
    constructor
    · rintro ⟨⟨u2, ts0⟩, hpmem, hf⟩
      dsimp only at hf
      by_cases h2 : ts0.length ≠ 2
      · rw [if_pos h2] at hf
        have hp : u2 = u ∧ List.insertionSort strle ts0 = ts := by simpa using hf
        obtain ⟨rfl, hsort⟩ := hp
        exact ⟨ts0, (pmt_mem_iff_lookup _ hkeys u2 ts0).mp hpmem, h2, hsort.symm⟩
      · rw [if_neg h2] at hf
        exact absurd hf (by simp)
    · rintro ⟨ts0, hl, h2, rfl⟩
      refine ⟨(u, ts0), (pmt_mem_iff_lookup _ hkeys u ts0).mpr hl, ?_⟩
      dsimp only
      rw [if_pos h2]
  · intro u ts0 hl
    constructor
    · refine pmtAux_teams_nodup rows [] ?_ u ts0 hl
      intro u2 ts2 h2
      rw [List.lookup_nil] at h2
      exact absurd h2 (by simp)
    · intro t
      have h2 := pmtAux_lookup_mem rows [] u t
      unfold per_match_teams at hl
      rw [hl, Option.getD_some, List.lookup_nil] at h2
      simpa using h2

/-- Witness for C4 at the spec's coverage example: fixtures a, b, c with
snapshot urls a and b, the a-side having recorded only one team. -/
theorem C4_reconciler_witness :
    "c" ∈ missing_urls ["a", "b", "c"]
      [SnapRow.mk "a" "T1", SnapRow.mk "b" "T1", SnapRow.mk "b" "T2"] ∧
    "a" ∉ extra_urls ["a", "b", "c"]
      [SnapRow.mk "a" "T1", SnapRow.mk "b" "T1", SnapRow.mk "b" "T2"] ∧
    ("a", ["T1"]) ∈ incomplete_matches
      [SnapRow.mk "a" "T1", SnapRow.mk "b" "T1", SnapRow.mk "b" "T2"] := by
  refine ⟨?_, ?_, ?_⟩
  · exact ((C4_reconciler ["a", "b", "c"]
      [SnapRow.mk "a" "T1", SnapRow.mk "b" "T1", SnapRow.mk "b" "T2"]).1 "c").mpr
      ⟨by decide, by decide⟩
  · intro h
    have h2 := ((C4_reconciler ["a", "b", "c"]
      [SnapRow.mk "a" "T1", SnapRow.mk "b" "T1", SnapRow.mk "b" "T2"]).2.1 "a").mp h
    exact absurd h2.2 (by decide)
  · exact ((C4_reconciler ["a", "b", "c"]
      [SnapRow.mk "a" "T1", SnapRow.mk "b" "T1", SnapRow.mk "b" "T2"]).2.2.2.1 "a" ["T1"]).mpr
      ⟨["T1"], by decide, by decide, by decide⟩

/- ------------------------------------------------------------------ -/
/- C5                                                                 -/
/- ------------------------------------------------------------------ -/

/-- C5 is refuted: the incomplete report is emitted in first-appearance
order of the match urls, not sorted by url; a snapshot whose first
incomplete match has the larger url yields an incomplete list that is
not lexicographically sorted. -/
theorem C5_counterexample :
    (incomplete_matches [SnapRow.mk "b" "T1", SnapRow.mk "a" "T2"]).map Prod.fst =
      ["b", "a"] ∧
    ¬ List.Sorted strle
      ((incomplete_matches [SnapRow.mk "b" "T1", SnapRow.mk "a" "T2"]).map Prod.fst) := by
  constructor
  · decide
  · decide

/-- The incomplete entries keep the key of their per_match_teams entry,
so their url order is a sub-order of the key order. -/
theorem incomplete_fst_sublist (rows : List SnapRow) :
    ((incomplete_matches rows).map Prod.fst).Sublist ((per_match_teams rows).map Prod.fst) := by
  unfold incomplete_matches
  generalize per_match_teams rows = pmt
  induction pmt with
  | nil => simp
  | cons p rest ih =>
    rw [List.filterMap_cons]
    by_cases h : p.2.length ≠ 2
    · rw [if_pos h]
      exact List.Sublist.cons₂ p.1 ih
    · rw [if_neg h]
      exact List.Sublist.cons p.1 ih

/-- C5 (amended): the missing and extra reports are sorted
lexicographically by url and each incomplete entry's team list is
sorted, but the incomplete report itself is not sorted by url: its
entries appear in the order in which their match urls first appear in
the snapshot. -/
theorem C5_amended (fixture_urls : List String) (rows : List SnapRow) :
    List.Sorted strle (missing_urls fixture_urls rows) ∧
    List.Sorted strle (extra_urls fixture_urls rows) ∧
    (∀ p ∈ incomplete_matches rows, List.Sorted strle p.2) ∧
    ((incomplete_matches rows).map Prod.fst).Sublist (dedupFirst (validUrls rows)) := by
  refine ⟨List.sorted_insertionSort strle _, List.sorted_insertionSort strle _, ?_, ?_⟩
  · intro p hp
    unfold incomplete_matches at hp
    rw [List.mem_filterMap] at hp
    obtain ⟨⟨u2, ts0⟩, _, hf⟩ := hp
    dsimp only at hf
    by_cases h2 : ts0.length ≠ 2
    · rw [if_pos h2] at hf
      have hp2 : p = (u2, List.insertionSort strle ts0) := by
        injection hf with h
        exact h.symm
      rw [hp2]
      exact List.sorted_insertionSort strle ts0
    · rw [if_neg h2] at hf
      exact absurd hf (by simp)
  · have h1 := incomplete_fst_sublist rows
    unfold per_match_teams at h1
    rw [pmtAux_keys] at h1
    simpa [dedupFirst] using h1

/-- Witness for the amended C5 at a snapshot with a three-team match. -/
theorem C5_amended_witness :
    List.Sorted strle (missing_urls ["b", "a"]
      [SnapRow.mk "a" "T2", SnapRow.mk "a" "T1", SnapRow.mk "a" "T3"]) ∧
    List.Sorted strle
      ((("a", ["T1", "T2", "T3"]) : String × List String).2) :=
  ⟨(C5_amended ["b", "a"]
      [SnapRow.mk "a" "T2", SnapRow.mk "a" "T1", SnapRow.mk "a" "T3"]).1,
   (C5_amended ["b", "a"]
      [SnapRow.mk "a" "T2", SnapRow.mk "a" "T1", SnapRow.mk "a" "T3"]).2.2.1
     ("a", ["T1", "T2", "T3"]) (by decide)⟩
